import Mathlib

/-!
Shallow embedding of the poziq image slicing/assembly library
(`poziq/image.py`), together with theorems settling the specification's
claims about it.

Images are modelled as a size, a pixel mode, and a total pixel function;
pixel values are abstract naturals (0 is the mode's default fill, as
produced by `Image.new`).  Filesystem effects are dropped: functions that
read a directory take its contents as an explicit list, and saving
returns the paths that would be written.
-/

namespace Poziq

/-- An in-memory raster image, as PIL's `Image` is used by the code.
`px x y` is the pixel at column `x`, row `y`; values outside
`[0,width) × [0,height)` are never inspected by any stated property. -/
structure Img where
  width : Nat
  height : Nat
  mode : String
  px : Nat → Nat → Nat

/-- `Image.new(mode, (w, h))`: blank image, default (zero) fill. -/
def newImg (mode : String) (w h : Nat) : Img :=
  ⟨w, h, mode, fun _ _ => 0⟩

/-- `image.crop((l, t, r, b))`: sub-image of size `(r - l, b - t)` whose
pixel `(dx, dy)` is the source pixel `(l + dx, t + dy)`. -/
def cropImg (img : Img) (l t r b : Nat) : Img :=
  ⟨r - l, b - t, img.mode, fun dx dy => img.px (l + dx) (t + dy)⟩

/-- `dst.paste(src, (x0, y0))`: pixels inside the pasted rectangle come
from `src`, all others are unchanged; size and mode are `dst`'s. -/
def pasteImg (dst src : Img) (x0 y0 : Nat) : Img :=
  { dst with
    px := fun x y =>
      if x0 ≤ x ∧ x < x0 + src.width ∧ y0 ≤ y ∧ y < y0 + src.height then
        src.px (x - x0) (y - y0)
      else dst.px x y }

/-- PIL's `img.size` attribute. -/
def Img.size (img : Img) : Nat × Nat := (img.width, img.height)

/-- The error taxonomy of `poziq.image`, one constructor per distinct
failure raised by the code (each a `ValueError` / `FileNotFoundError` /
`NotADirectoryError` / `OSError` with its own message). -/
inductive Err where
  /-- `FileNotFoundError` for a missing input image path. -/
  | notFound : Err
  /-- `NotADirectoryError` from `load_slices`. -/
  | notADirectory : Err
  /-- `OSError` wrapping a codec failure. -/
  | decodeErr : Err
  /-- `ValueError` from `validate_extension`; carries the offending
  (un-normalized) extension exactly as the code interpolates it. -/
  | unsupportedFormat (extension : String) : Err
  /-- `ValueError`/`TypeError` for a bad argument; carries the message. -/
  | invalidArgument (msg : String) : Err
  /-- `ValueError: No valid slices found` from `load_slices`. -/
  | noSlicesFound : Err
  /-- `ValueError: No slices provided` from `validate_dimensions`. -/
  | noSlicesProvided : Err
  /-- `ValueError` for a slice-count mismatch in `validate_dimensions`;
  carries expected count, found count, rows and cols as interpolated. -/
  | countMismatch (expected found rows cols : Nat) : Err
  /-- `ValueError` for a slice-size mismatch in `validate_dimensions`;
  carries the slice index, its size, and the expected size. -/
  | sizeMismatch (idx : Nat) (size : Nat × Nat) (expected : Nat × Nat) : Err
  deriving DecidableEq

/-! ### Substring containment (for claims about error-message content) -/

/-- `isPrefOf pat l`: `pat` is a prefix of `l`. -/
def isPrefOf : List Char → List Char → Bool
  | [], _ => true
  | _ :: _, [] => false
  | a :: as, b :: bs => a = b && isPrefOf as bs

/-- `containsSeq pat l`: `pat` occurs contiguously inside `l`. -/
def containsSeq (pat : List Char) : List Char → Bool
  | [] => isPrefOf pat []
  | c :: rest => isPrefOf pat (c :: rest) || containsSeq pat rest

/-- The string `s` contains `sub` as a contiguous substring. -/
def containsSub (s sub : String) : Prop := containsSeq sub.data s.data = true

instance (s sub : String) : Decidable (containsSub s sub) :=
  inferInstanceAs (Decidable (containsSeq sub.data s.data = true))

instance {ε α : Type} [DecidableEq ε] [DecidableEq α] : DecidableEq (Except ε α) :=
  fun x y =>
    match x, y with
    | .ok a, .ok b =>
      if h : a = b then .isTrue (by rw [h]) else .isFalse fun he => h (Except.ok.inj he)
    | .error a, .error b =>
      if h : a = b then .isTrue (by rw [h])
      else .isFalse fun he => h (Except.error.inj he)
    | .ok _, .error _ => .isFalse fun he => Except.noConfusion he
    | .error _, .ok _ => .isFalse fun he => Except.noConfusion he

/-! ### Extension validation (`validate_extension`, image.py lines 22–37) -/

/-- `SUPPORTED_EXTENSIONS` in its literal (insertion) order. -/
def SUPPORTED_EXTENSIONS : List String :=
  ["png", "jpg", "jpeg", "bmp", "gif", "tiff", "webp"]

/-- `extension.lstrip(".").lower()`: drop every leading dot, lowercase. -/
def normalizeExt (e : String) : String :=
  String.mk ((e.data.dropWhile (fun c => c = '.')).map Char.toLower)

/-- `validate_extension`: normalize, then check membership in the
supported set; on failure the offending original string is reported. -/
def validate_extension (e : String) : Except Err String :=
  let ext := normalizeExt e
  if ext ∈ SUPPORTED_EXTENSIONS then .ok ext else .error (.unsupportedFormat e)

/-- `sorted(SUPPORTED_EXTENSIONS)`, as interpolated into the error
message by `', '.join(sorted(SUPPORTED_EXTENSIONS))`. -/
def sortedSupported : List String :=
  ["bmp", "gif", "jpeg", "jpg", "png", "tiff", "webp"]

/-- The message of the `Unsupported image format` error. -/
def unsupportedMsg (e : String) : String :=
  "Unsupported image format: " ++ e ++
    ("\nSupported formats: " ++ String.intercalate ", " sortedSupported)

/-! ### Grid geometry -/

/-- `math.ceil(a / b)` for natural `a`, positive natural `b`. -/
def cdiv (a b : Nat) : Nat := (a + b - 1) / b

/-! ### Slicing (`slice_image`, image.py lines 40–102) -/

/-- The nested row/column loop body of `slice_image`, factored out: crop
the per-cell box, and pad edge pieces to full size by pasting the crop
at the origin of a blank image in the source's mode.  The source's loop
uses a single square `slice_size`; the spec's grid geometry (§4.1) uses
the same box formula with separate `slice_width`/`slice_height`, so the
loop is embedded once with separate `sw`/`sh` and the legacy variant
instantiates `sw = sh = slice_size`. -/
def cell (img : Img) (sw sh row col : Nat) : Img :=
  let l := col * sw
  let t := row * sh
  let r := min ((col + 1) * sw) img.width
  let b := min ((row + 1) * sh) img.height
  let c := cropImg img l t r b
  if (c.width, c.height) ≠ (sw, sh) then pasteImg (newImg img.mode sw sh) c 0 0
  else c

/-- The row-major double loop of `slice_image` (row outer, col inner). -/
def sliceCore (img : Img) (sw sh rows cols : Nat) : List Img :=
  (List.range rows).flatMap fun row => (List.range cols).map fun col =>
    cell img sw sh row col

/-- `slice_image(image_path, slice_size)`, the legacy single-size
variant, with the filesystem stages made explicit: `ex` is whether the
path exists, `decoded` is the decoded image (`none` when the bytes are
not a valid image).  Checks mirror the source's order: existence, then
`slice_size <= 0`, then decoding, then the minimum-dimension check. -/
def slice_image (ex : Bool) (decoded : Option Img) (slice_size : Int) :
    Except Err (List Img) :=
  if !ex then .error .notFound
  else if slice_size ≤ 0 then .error (.invalidArgument "slice_size must be positive")
  else
    match decoded with
    | none => .error .decodeErr
    | some img =>
      if (img.width : Int) < slice_size ∨ (img.height : Int) < slice_size then
        .error (.invalidArgument
          ("Image dimensions (" ++ toString img.width ++ "x" ++ toString img.height ++
            ") are smaller than slice_size (" ++ toString slice_size ++ "x" ++
            toString slice_size ++ ")"))
      else
        .ok (sliceCore img slice_size.toNat slice_size.toNat
          (cdiv img.height slice_size.toNat) (cdiv img.width slice_size.toNat))

/-- Whether a `slice_image` outcome is an `InvalidArgument` failure. -/
def isInvalidArg : Except Err (List Img) → Bool
  | .error (.invalidArgument _) => true
  | _ => false

/-- Modelled from the spec: the grid-mode slicer (spec §4.1/§4.2) is not
present under `src` (only `cli.py` calls it); per the spec it computes
`slice_width = ceil(width/cols)`, `slice_height = ceil(height/rows)` and
runs the same row-major crop-and-pad loop over the requested
`rows × cols` cells. -/
def sliceGrid (img : Img) (rows cols : Nat) : List Img :=
  sliceCore img (cdiv img.width cols) (cdiv img.height rows) rows cols

/-! ### Saving slices (`save_slices`, image.py lines 147–160) -/

/-- Python's `f"{n:0{w}d}"` for natural `n`: left-pad with zeros to
width `w`. -/
def zeroPad (w n : Nat) : String :=
  String.mk (List.replicate (w - (toString n).length) '0') ++ toString n

/-- `save_slices(slices, output_dir, prefix)`: directory creation and the
actual encoding are filesystem/codec effects; the returned list of paths
is modelled.  Note the source hard-codes the `.png` suffix and accepts
no extension argument. -/
def save_slices (slices : List Img) (output_dir pfx : String) : List String :=
  slices.enum.map fun p =>
    output_dir ++ "/" ++ pfx ++ "_" ++
      zeroPad (toString slices.length).length p.1 ++ ".png"

/-! ### Loading slices (`load_slices`, image.py lines 163–197) -/

/-- Drop `pat` from the front of the second list, or fail. -/
def dropPref : List Char → List Char → Option (List Char)
  | [], rest => some rest
  | _ :: _, [] => none
  | p :: ps, c :: cs => if p = c then dropPref ps cs else none

/-- Drop `suf` from the end of `target`, or fail. -/
def stripSuffixChars (suf target : List Char) : Option (List Char) :=
  match dropPref suf.reverse target.reverse with
  | some r => some r.reverse
  | none => none

/-- `int` on a string of decimal digits. -/
def digitsVal (ds : List Char) : Nat :=
  ds.foldl (fun a c => a * 10 + (c.toNat - 48)) 0

/-- `re.compile(rf"{prefix}_(\d+)\.{extension}$").match(name)`: the match
is anchored at the start of `name` (Python's `match`) and at its end
(the `$`), so it succeeds exactly when
`name = prefix ++ "_" ++ digits ++ "." ++ extension` with `digits` a
non-empty run of decimal digits, returning their value.  The
`*.{extension}` glob pre-filter is subsumed by the suffix condition. -/
def matchSliceName (pfx ext name : String) : Option Nat :=
  match dropPref (pfx ++ "_").data name.data with
  | none => none
  | some rest =>
    match stripSuffixChars ("." ++ ext).data rest with
    | none => none
    | some ds =>
      if ds ≠ [] ∧ ds.all Char.isDigit then some (digitsVal ds) else none

instance : DecidableRel fun (a b : Img × Nat) => a.2 ≤ b.2 :=
  fun a b => Nat.decLe a.2 b.2

instance : IsTotal (Img × Nat) fun a b => a.2 ≤ b.2 :=
  ⟨fun a b => Nat.le_total a.2 b.2⟩

instance : IsTrans (Img × Nat) fun a b => a.2 ≤ b.2 :=
  ⟨fun _ _ _ => Nat.le_trans⟩

/-- `sorted(slices, key=lambda x: x[1])`. -/
def sortByIdx (l : List (Img × Nat)) : List (Img × Nat) :=
  l.insertionSort fun a b => a.2 ≤ b.2

/-- The loader's selection loop: every file whose name matches the
(normalized-extension) pattern, paired with its captured index, in
directory order. -/
def matchedFiles (dir : List (String × Img)) (pfx ext2 : String) :
    List (Img × Nat) :=
  dir.filterMap fun f =>
    match matchSliceName pfx ext2 f.1 with
    | some idx => some (f.2, idx)
    | none => none

/-- `load_slices(slice_dir, prefix, extension)`: `isDir` is whether the
path is a directory, `dir` its contents as (filename, decoded image)
pairs (every present file is taken decodable; decode failures are not
needed by any claim). -/
def load_slices (isDir : Bool) (dir : List (String × Img)) (pfx ext : String) :
    Except Err (List (Img × Nat)) :=
  if !isDir then .error .notADirectory
  else
    match validate_extension ext with
    | .error e => .error e
    | .ok ext2 =>
      let matched := matchedFiles dir pfx ext2
      if matched.isEmpty then .error .noSlicesFound
      else .ok (sortByIdx matched)

/-- Modelled from the words of the claim under test (C5), for comparison
with the source's `matchSliceName`: a matcher anchored only at the
filename END — the pattern `{prefix}_(\d+).{ext}` must match a suffix of
the name, digits captured greedily. -/
def matchSliceNameEnd (pfx ext name : String) : Option Nat :=
  match stripSuffixChars ("." ++ ext).data name.data with
  | none => none
  | some rest =>
    let ds := (rest.reverse.takeWhile Char.isDigit).reverse
    let before := rest.take (rest.length - ds.length)
    if ds ≠ [] ∧ isPrefOf (pfx ++ "_").data.reverse before.reverse then
      some (digitsVal ds)
    else none

/-- Modelled from the words of the claim under test (C5): the selection
the claim describes — keep exactly the end-anchored matches, sorted by
the captured index. -/
def loadEndAnchored (dir : List (String × Img)) (pfx ext : String) :
    List (Img × Nat) :=
  sortByIdx (dir.filterMap fun f =>
    match matchSliceNameEnd pfx ext f.1 with
    | some idx => some (f.2, idx)
    | none => none)

/-! ### Dimension validation (`validate_dimensions`, image.py lines 200–228) -/

/-- The message of the count-mismatch `ValueError`. -/
def countMsg (expected found rows cols : Nat) : String :=
  "Expected " ++ toString expected ++ " slices (rows=" ++ toString rows ++
    (", cols=" ++ toString cols ++ "), but found " ++ toString found)

/-- The message of the size-mismatch `ValueError`. -/
def sizeMsg (idx : Nat) (size expected : Nat × Nat) : String :=
  "Slice " ++ toString idx ++ " has inconsistent dimensions (" ++
    (toString size.1 ++ ", " ++ toString size.2 ++ "), expected (" ++
      (toString expected.1 ++ ", " ++ toString expected.2 ++ ")"))

/-- The `for img, idx in slices:` consistency loop. -/
def checkSizes (sw sh : Nat) : List (Img × Nat) → Except Err Unit
  | [] => .ok ()
  | (img, idx) :: rest =>
    if (img.width, img.height) ≠ (sw, sh) then
      .error (.sizeMismatch idx (img.width, img.height) (sw, sh))
    else checkSizes sw sh rest

/-- `validate_dimensions(slices, rows, cols)`. -/
def validate_dimensions (slices : List (Img × Nat)) (rows cols : Nat) :
    Except Err (Nat × Nat) :=
  match slices with
  | [] => .error .noSlicesProvided
  | first :: rest =>
    if (first :: rest).length ≠ rows * cols then
      .error (.countMismatch (rows * cols) (first :: rest).length rows cols)
    else
      match checkSizes first.1.width first.1.height (first :: rest) with
      | .error e => .error e
      | .ok _ => .ok (first.1.width, first.1.height)

/-- Modelled from the words of the claim under test (C6), for comparison
with `validate_dimensions`: the first slice in INDEX order whose size
differs from the (index-order) first slice's size, with its index and
size. -/
def firstMismatch (l : List (Img × Nat)) : Option (Nat × (Nat × Nat)) :=
  match sortByIdx l with
  | [] => none
  | f :: rest =>
    ((f :: rest).find? fun p => p.1.size != f.1.size).map fun p => (p.2, p.1.size)

/-! ### Assembly (`assemble_image`, image.py lines 105–144) -/

/-- The paste loop of `assemble_image`: each slice `(img, idx)` is pasted
at `(idx % cols * slice_width, idx // cols * slice_height)`. -/
def pasteAll (sw sh cols : Nat) : Img → List (Img × Nat) → Img
  | acc, [] => acc
  | acc, p :: rest =>
    pasteAll sw sh cols (pasteImg acc p.1 (p.2 % cols * sw) (p.2 / cols * sh)) rest

/-- The post-load part of `assemble_image`: validate, allocate the RGBA
canvas of size `(cols*slice_width, rows*slice_height)`, paste. -/
def assembleSet (slices : List (Img × Nat)) (rows cols : Nat) : Except Err Img :=
  match validate_dimensions slices rows cols with
  | .error e => .error e
  | .ok (sw, sh) => .ok (pasteAll sw sh cols (newImg "RGBA" (cols * sw) (rows * sh)) slices)

/-- `assemble_image(slice_dir, rows, cols, prefix, extension)`. -/
def assemble_image (isDir : Bool) (dir : List (String × Img)) (rows cols : Nat)
    (pfx ext : String) : Except Err Img :=
  match load_slices isDir dir pfx ext with
  | .error e => .error e
  | .ok slices => assembleSet slices rows cols

/-- Pair each slice of a sliced set with its grid index (the index the
writer embeds in the filename and the loader recovers from it). -/
def attachIdx : List Img → Nat → List (Img × Nat)
  | [], _ => []
  | a :: l, n => (a, n) :: attachIdx l (n + 1)

/-- The image produced by assembling the slice set of the grid-mode
slicer with the same `rows`/`cols` (the payload of the round trip's
`assembleSet`). -/
def roundTrip (img : Img) (rows cols : Nat) : Img :=
  pasteAll (cdiv img.width cols) (cdiv img.height rows) cols
    (newImg "RGBA" (cols * cdiv img.width cols) (rows * cdiv img.height rows))
    (attachIdx (sliceGrid img rows cols) 0)

/-- Region of the output canvas written by the paste of slice `p`. -/
def coversAt (sw sh cols : Nat) (p : Img × Nat) (x y : Nat) : Prop :=
  p.2 % cols * sw ≤ x ∧ x < p.2 % cols * sw + p.1.width ∧
    p.2 / cols * sh ≤ y ∧ y < p.2 / cols * sh + p.1.height

/-! ### Concrete images and directories used by witnesses and
counterexamples -/

/-- A blank RGBA test image of the given size. -/
def mkImg (w h : Nat) : Img := ⟨w, h, "RGBA", fun _ _ => 0⟩

/-- A constant-valued single-mode test image. -/
def constImg (w h v : Nat) : Img := ⟨w, h, "L", fun _ _ => v⟩

/-- A 3×2 test image with pairwise distinct pixels. -/
def imgSrc : Img := ⟨3, 2, "RGB", fun x y => 100 + 10 * x + y⟩

/-- A 3×3 test image with pairwise distinct pixels. -/
def imgSq : Img := ⟨3, 3, "RGB", fun x y => 10 * x + y⟩

/-- The spec's size-mismatch example, in index order. -/
def s6 : List (Img × Nat) :=
  [(mkImg 100 150, 0), (mkImg 100 150, 1), (mkImg 90 150, 2), (mkImg 100 150, 3)]

/-- A size-mismatch input whose list order disagrees with index order. -/
def cex6 : List (Img × Nat) :=
  [(mkImg 100 150, 3), (mkImg 90 150, 2), (mkImg 100 150, 1), (mkImg 80 150, 0)]

/-- Four consistent slices (for the count-mismatch example). -/
def s7 : List (Img × Nat) :=
  [(mkImg 100 150, 0), (mkImg 100 150, 1), (mkImg 100 150, 2), (mkImg 100 150, 3)]

/-- A directory whose single file matches `slice_(\d+)\.png` at the end
of its name but not at its start. -/
def dir5 : List (String × Img) := [("x_slice_3.png", mkImg 1 1)]

/-- A directory with two well-named slices (listed out of index order)
and one unrelated file. -/
def dirW5 : List (String × Img) :=
  [("slice_1.png", constImg 1 1 7), ("notes.txt", constImg 1 1 9),
    ("slice_0.png", constImg 1 1 5)]

/-! # Theorems -/

/-! ### Image-operation projection lemmas -/

@[simp] theorem newImg_width (m : String) (w h : Nat) : (newImg m w h).width = w := rfl

@[simp] theorem newImg_height (m : String) (w h : Nat) : (newImg m w h).height = h := rfl

@[simp] theorem newImg_mode (m : String) (w h : Nat) : (newImg m w h).mode = m := rfl

@[simp] theorem newImg_px (m : String) (w h x y : Nat) : (newImg m w h).px x y = 0 := rfl

@[simp] theorem cropImg_width (img : Img) (l t r b : Nat) :
    (cropImg img l t r b).width = r - l := rfl

@[simp] theorem cropImg_height (img : Img) (l t r b : Nat) :
    (cropImg img l t r b).height = b - t := rfl

@[simp] theorem cropImg_mode (img : Img) (l t r b : Nat) :
    (cropImg img l t r b).mode = img.mode := rfl

@[simp] theorem cropImg_px (img : Img) (l t r b dx dy : Nat) :
    (cropImg img l t r b).px dx dy = img.px (l + dx) (t + dy) := rfl

@[simp] theorem pasteImg_width (dst src : Img) (x0 y0 : Nat) :
    (pasteImg dst src x0 y0).width = dst.width := rfl

@[simp] theorem pasteImg_height (dst src : Img) (x0 y0 : Nat) :
    (pasteImg dst src x0 y0).height = dst.height := rfl

@[simp] theorem pasteImg_mode (dst src : Img) (x0 y0 : Nat) :
    (pasteImg dst src x0 y0).mode = dst.mode := rfl

theorem pasteImg_px (dst src : Img) (x0 y0 x y : Nat) :
    (pasteImg dst src x0 y0).px x y =
      if x0 ≤ x ∧ x < x0 + src.width ∧ y0 ≤ y ∧ y < y0 + src.height then
        src.px (x - x0) (y - y0)
      else dst.px x y := rfl

/-! ### Substring lemmas -/

theorem isPrefOf_append (l t : List Char) : isPrefOf l (l ++ t) = true := by
  induction l with
  | nil => rfl
  | cons a as ih => simp [isPrefOf, ih]

theorem containsSeq_nil (l : List Char) : containsSeq [] l = true := by
  induction l with
  | nil => rfl
  | cons c cs ih => simp [containsSeq, ih]

theorem containsSeq_of_append (pre pat post : List Char) :
    containsSeq pat (pre ++ (pat ++ post)) = true := by
  induction pre with
  | nil =>
    cases pat with
    | nil => exact containsSeq_nil _
    | cons c cs => simp [containsSeq, isPrefOf, isPrefOf_append]
  | cons c cs ih => simp [containsSeq, ih]

theorem containsSub_append_mid (a b c : String) : containsSub (a ++ b ++ c) b := by
  show containsSeq b.data (a ++ b ++ c).data = true
  have h : (a ++ b ++ c).data = a.data ++ (b.data ++ c.data) := by
    simp [String.data_append]
  rw [h]
  exact containsSeq_of_append a.data b.data c.data

theorem containsSub_intro (s pre sub post : String) (h : s = pre ++ sub ++ post) :
    containsSub s sub := h ▸ containsSub_append_mid pre sub post

theorem containsSub_trans_append (a b : String) (sub : String)
    (h : containsSub b sub) : containsSub (a ++ b) sub := by
  unfold containsSub at h ⊢
  have hd : (a ++ b).data = a.data ++ b.data := by simp [String.data_append]
  rw [hd]
  induction a.data with
  | nil => simpa using h
  | cons c cs ih => simp [containsSeq, ih]

theorem sortedSupported_perm : sortedSupported.Perm SUPPORTED_EXTENSIONS := by
  decide

/-! ### Ceiling-division lemmas -/

theorem cdiv_pos (a b : Nat) (ha : 0 < a) (hb : 0 < b) : 0 < cdiv a b := by
  apply Nat.div_pos _ hb
  omega

theorem le_mul_cdiv (a b : Nat) (hb : 0 < b) : a ≤ b * cdiv a b := by
  by_contra hlt
  push_neg at hlt
  have h1 : b * cdiv a b + 1 ≤ a := hlt
  have h2 : cdiv a b + 1 ≤ cdiv a b := by
    rw [cdiv, Nat.le_div_iff_mul_le hb]
    calc (cdiv a b + 1) * b = b * cdiv a b + b := by ring
    _ ≤ a - 1 + b := by omega
    _ ≤ a + b - 1 := by omega
  omega

/-! ### Slicing-loop lemmas -/

theorem flatMap_range_map_length {α : Type} (f : Nat → Nat → α) (R C : Nat) :
    ((List.range R).flatMap fun r => (List.range C).map (f r)).length = R * C := by
  induction R with
  | zero => simp
  | succ R ih =>
    rw [List.range_succ, List.flatMap_append]
    simp [ih, Nat.succ_mul]

theorem flatMap_range_map_get {α : Type} (f : Nat → Nat → α) (R C r c : Nat)
    (hr : r < R) (hc : c < C) :
    ((List.range R).flatMap fun i => (List.range C).map (f i)).get? (r * C + c) =
      some (f r c) := by
  induction R with
  | zero => omega
  | succ R ih =>
    rw [List.range_succ, List.flatMap_append]
    rcases Nat.lt_or_ge r R with h | h
    · rw [List.get?_append]
      · exact ih h
      · rw [flatMap_range_map_length]
        have h1 : (r + 1) * C ≤ R * C := Nat.mul_le_mul_right C h
        have h2 : (r + 1) * C = r * C + C := by ring
        omega
    · have hrR : r = R := by omega
      subst hrR
      rw [List.get?_append_right]
      · rw [flatMap_range_map_length]
        simp only [List.flatMap_cons, List.flatMap_nil, List.append_nil]
        have hsub : r * C + c - r * C = c := by omega
        rw [hsub, List.get?_map, List.get?_range hc]
        rfl
      · rw [flatMap_range_map_length]
        omega

theorem sliceCore_length (img : Img) (sw sh rows cols : Nat) :
    (sliceCore img sw sh rows cols).length = rows * cols :=
  flatMap_range_map_length _ rows cols

theorem sliceCore_get (img : Img) (sw sh rows cols row col : Nat)
    (hr : row < rows) (hc : col < cols) :
    (sliceCore img sw sh rows cols).get? (row * cols + col) =
      some (cell img sw sh row col) :=
  flatMap_range_map_get _ rows cols row col hr hc

theorem cell_width (img : Img) (sw sh row col : Nat) :
    (cell img sw sh row col).width = sw := by
  simp only [cell]
  split
  · rfl
  · next h =>
    simp only [cropImg] at h ⊢
    have := (Prod.mk.injEq _ _ _ _).mp (not_ne_iff.mp h)
    exact this.1

theorem cell_height (img : Img) (sw sh row col : Nat) :
    (cell img sw sh row col).height = sh := by
  simp only [cell]
  split
  · rfl
  · next h =>
    simp only [cropImg] at h ⊢
    have := (Prod.mk.injEq _ _ _ _).mp (not_ne_iff.mp h)
    exact this.2

theorem cell_mode (img : Img) (sw sh row col : Nat) :
    (cell img sw sh row col).mode = img.mode := by
  simp only [cell]
  split
  · rfl
  · rfl

/-- Unified pixel description of a slice: inside the source it shows the
source pixel under the cell's offset, outside it shows the padding
fill 0. -/
theorem cell_px (img : Img) (sw sh row col dx dy : Nat)
    (hdx : dx < sw) (hdy : dy < sh) :
    (cell img sw sh row col).px dx dy =
      if col * sw + dx < img.width ∧ row * sh + dy < img.height then
        img.px (col * sw + dx) (row * sh + dy)
      else 0 := by
  have e1 : (col + 1) * sw = col * sw + sw := by ring
  have e2 : (row + 1) * sh = row * sh + sh := by ring
  simp only [cell]
  split
  · next hne =>
    rw [pasteImg_px]
    simp only [cropImg_width, cropImg_height, cropImg_px, newImg_px, e1, e2]
    split_ifs
    all_goals first
    | rfl
    | (exfalso; omega)
  · next heq =>
    rw [cropImg_px]
    have hsz := not_ne_iff.mp heq
    simp only [cropImg_width, cropImg_height, Prod.mk.injEq, e1, e2] at hsz
    obtain ⟨hW, hH⟩ := hsz
    rw [if_pos]
    have h1 : min (col * sw + sw) img.width ≤ img.width := Nat.min_le_right _ _
    have h2 : min (row * sh + sh) img.height ≤ img.height := Nat.min_le_right _ _
    constructor
    · omega
    · omega

theorem sliceCore_mem_size (img : Img) (sw sh rows cols : Nat) (sl : Img)
    (h : sl ∈ sliceCore img sw sh rows cols) :
    sl.width = sw ∧ sl.height = sh ∧ sl.mode = img.mode := by
  unfold sliceCore at h
  rw [List.mem_flatMap] at h
  obtain ⟨row, -, hmem⟩ := h
  rw [List.mem_map] at hmem
  obtain ⟨col, -, rfl⟩ := hmem
  exact ⟨cell_width .., cell_height .., cell_mode ..⟩

/-! ### Paste-loop lemmas -/

theorem pasteAll_width (sw sh cols : Nat) (l : List (Img × Nat)) (acc : Img) :
    (pasteAll sw sh cols acc l).width = acc.width := by
  induction l generalizing acc with
  | nil => rfl
  | cons p rest ih =>
    simp only [pasteAll]
    rw [ih]
    rfl

theorem pasteAll_height (sw sh cols : Nat) (l : List (Img × Nat)) (acc : Img) :
    (pasteAll sw sh cols acc l).height = acc.height := by
  induction l generalizing acc with
  | nil => rfl
  | cons p rest ih =>
    simp only [pasteAll]
    rw [ih]
    rfl

theorem pasteAll_mode (sw sh cols : Nat) (l : List (Img × Nat)) (acc : Img) :
    (pasteAll sw sh cols acc l).mode = acc.mode := by
  induction l generalizing acc with
  | nil => rfl
  | cons p rest ih =>
    simp only [pasteAll]
    rw [ih]
    rfl

theorem pasteAll_px_not_covered (sw sh cols : Nat) (l : List (Img × Nat))
    (acc : Img) (x y : Nat) (h : ∀ p ∈ l, ¬ coversAt sw sh cols p x y) :
    (pasteAll sw sh cols acc l).px x y = acc.px x y := by
  induction l generalizing acc with
  | nil => rfl
  | cons p rest ih =>
    simp only [pasteAll]
    rw [ih _ fun q hq => h q (List.mem_cons_of_mem _ hq)]
    rw [pasteImg_px, if_neg]
    exact fun hcov => h p (List.mem_cons_self _ _) hcov

theorem pasteAll_append (sw sh cols : Nat) (l1 l2 : List (Img × Nat)) (acc : Img) :
    pasteAll sw sh cols acc (l1 ++ l2) =
      pasteAll sw sh cols (pasteAll sw sh cols acc l1) l2 := by
  induction l1 generalizing acc with
  | nil => rfl
  | cons p rest ih =>
    simp only [List.cons_append, pasteAll]
    exact ih _

theorem div_eq_of_between (a k x : Nat) (h1 : a * k ≤ x) (h2 : x < a * k + k) :
    x / k = a := by
  apply Nat.div_eq_of_lt_le
  · exact h1
  · rw [Nat.succ_mul]
    exact h2

theorem coversAt_idx_eq (sw sh cols : Nat) (p q : Img × Nat) (x y : Nat)
    (hp : coversAt sw sh cols p x y) (hq : coversAt sw sh cols q x y)
    (hpw : p.1.width = sw) (hph : p.1.height = sh)
    (hqw : q.1.width = sw) (hqh : q.1.height = sh) : p.2 = q.2 := by
  obtain ⟨hpx1, hpx2, hpy1, hpy2⟩ := hp
  obtain ⟨hqx1, hqx2, hqy1, hqy2⟩ := hq
  rw [hpw] at hpx2
  rw [hph] at hpy2
  rw [hqw] at hqx2
  rw [hqh] at hqy2
  have e1 : x / sw = p.2 % cols := div_eq_of_between _ _ _ hpx1 hpx2
  have e2 : x / sw = q.2 % cols := div_eq_of_between _ _ _ hqx1 hqx2
  have e3 : y / sh = p.2 / cols := div_eq_of_between _ _ _ hpy1 hpy2
  have e4 : y / sh = q.2 / cols := div_eq_of_between _ _ _ hqy1 hqy2
  calc p.2 = cols * (p.2 / cols) + p.2 % cols := (Nat.div_add_mod _ _).symm
  _ = cols * (y / sh) + x / sw := by rw [← e1, ← e3]
  _ = cols * (q.2 / cols) + q.2 % cols := by rw [e2, e4]
  _ = q.2 := Nat.div_add_mod _ _

theorem pasteAll_px_last (sw sh cols : Nat) (l1 l2 : List (Img × Nat))
    (p : Img × Nat) (acc : Img) (x y : Nat)
    (hcov : coversAt sw sh cols p x y)
    (hafter : ∀ q ∈ l2, ¬ coversAt sw sh cols q x y) :
    (pasteAll sw sh cols acc (l1 ++ p :: l2)).px x y =
      p.1.px (x - p.2 % cols * sw) (y - p.2 / cols * sh) := by
  rw [pasteAll_append]
  simp only [pasteAll]
  rw [pasteAll_px_not_covered _ _ _ _ _ _ _ hafter]
  rw [pasteImg_px]
  exact if_pos hcov

theorem pasteAll_px_unique (sw sh cols : Nat) (l : List (Img × Nat)) (acc : Img)
    (img : Img) (idx x y : Nat)
    (hmem : (img, idx) ∈ l)
    (hnd : (l.map Prod.snd).Nodup)
    (hsz : ∀ p ∈ l, p.1.width = sw ∧ p.1.height = sh)
    (hcov : coversAt sw sh cols (img, idx) x y) :
    (pasteAll sw sh cols acc l).px x y =
      img.px (x - idx % cols * sw) (y - idx / cols * sh) := by
  obtain ⟨l1, l2, rfl⟩ := List.append_of_mem hmem
  have hafter : ∀ q ∈ l2, ¬ coversAt sw sh cols q x y := by
    intro q hq hqcov
    have hsq := hsz q (by simp [hq])
    have hsp := hsz (img, idx) (by simp)
    have heq : q.2 = idx :=
      coversAt_idx_eq sw sh cols q (img, idx) x y hqcov hcov hsq.1 hsq.2 hsp.1 hsp.2
    have hin : idx ∈ l2.map Prod.snd := heq ▸ List.mem_map_of_mem Prod.snd hq
    rw [List.map_append, List.map_cons] at hnd
    have h2 := hnd.of_append_right
    exact (List.nodup_cons.mp h2).1 hin
  exact pasteAll_px_last sw sh cols l1 l2 (img, idx) acc x y hcov hafter

/-! ### Validation lemmas -/

theorem checkSizes_ok_iff (sw sh : Nat) (l : List (Img × Nat)) :
    checkSizes sw sh l = .ok () ↔ ∀ p ∈ l, p.1.width = sw ∧ p.1.height = sh := by
  induction l with
  | nil => simp [checkSizes]
  | cons p rest ih =>
    obtain ⟨img, idx⟩ := p
    simp only [checkSizes]
    split
    · next h =>
      constructor
      · intro hcontra
        exact absurd hcontra (by simp)
      · intro hall
        have hsz := hall (img, idx) (List.mem_cons_self _ _)
        exact absurd (show (img.width, img.height) = (sw, sh) by
          rw [hsz.1, hsz.2]) h
    · next h =>
      rw [ih]
      have hpair : img.width = sw ∧ img.height = sh :=
        (Prod.mk.injEq _ _ _ _).mp (not_ne_iff.mp h)
      constructor
      · intro hall q hq
        rcases List.mem_cons.mp hq with rfl | hq2
        · exact hpair
        · exact hall q hq2
      · intro hall q hq
        exact hall q (List.mem_cons_of_mem _ hq)

theorem checkSizes_error_first (sw sh : Nat) (l1 : List (Img × Nat))
    (p : Img × Nat) (l2 : List (Img × Nat))
    (hok : ∀ q ∈ l1, q.1.width = sw ∧ q.1.height = sh)
    (hbad : ¬(p.1.width = sw ∧ p.1.height = sh)) :
    checkSizes sw sh (l1 ++ p :: l2) =
      .error (.sizeMismatch p.2 (p.1.width, p.1.height) (sw, sh)) := by
  induction l1 with
  | nil =>
    obtain ⟨img, idx⟩ := p
    simp only [List.nil_append, checkSizes]
    have hc : (img.width, img.height) ≠ (sw, sh) := fun hpair =>
      hbad ((Prod.mk.injEq _ _ _ _).mp hpair)
    rw [if_pos hc]
  | cons q l1' ih =>
    obtain ⟨qi, qidx⟩ := q
    simp only [List.cons_append, checkSizes]
    have hq := hok (qi, qidx) (List.mem_cons_self _ _)
    have h1 : qi.width = sw := hq.1
    have h2 : qi.height = sh := hq.2
    rw [if_neg (not_ne_iff.mpr (by rw [h1, h2]))]
    exact ih fun r hr => hok r (List.mem_cons_of_mem _ hr)

theorem validate_dimensions_ok (slices : List (Img × Nat)) (rows cols sw sh : Nat)
    (hne : slices ≠ []) (hlen : slices.length = rows * cols)
    (hall : ∀ p ∈ slices, p.1.width = sw ∧ p.1.height = sh) :
    validate_dimensions slices rows cols = .ok (sw, sh) := by
  cases slices with
  | nil => exact absurd rfl hne
  | cons first rest =>
    have hf := hall first (List.mem_cons_self _ _)
    simp only [validate_dimensions]
    rw [if_neg (not_not.mpr hlen)]
    have hcs : checkSizes first.1.width first.1.height (first :: rest) = .ok () := by
      apply (checkSizes_ok_iff _ _ _).mpr
      intro p hp
      rw [hf.1, hf.2]
      exact hall p hp
    rw [hcs, hf.1, hf.2]

theorem validate_dimensions_ok_inv (slices : List (Img × Nat)) (rows cols sw sh : Nat)
    (h : validate_dimensions slices rows cols = .ok (sw, sh)) :
    slices ≠ [] ∧ slices.length = rows * cols ∧
      ∀ p ∈ slices, p.1.width = sw ∧ p.1.height = sh := by
  cases slices with
  | nil => exact absurd h (by simp [validate_dimensions])
  | cons first rest =>
    simp only [validate_dimensions] at h
    by_cases hlen : (first :: rest).length ≠ rows * cols
    · rw [if_pos hlen] at h
      exact absurd h (by simp)
    · rw [if_neg hlen] at h
      cases hcsv : checkSizes first.1.width first.1.height (first :: rest) with
      | error e =>
        rw [hcsv] at h
        exact absurd h (by simp)
      | ok u =>
        cases u
        rw [hcsv] at h
        simp only [Except.ok.injEq, Prod.mk.injEq] at h
        refine ⟨by simp, not_ne_iff.mp hlen, ?_⟩
        intro p hp
        have hall := (checkSizes_ok_iff _ _ _).mp hcsv p hp
        exact ⟨hall.1.trans h.1, hall.2.trans h.2⟩

/-! ### Index-attachment lemmas -/

theorem attachIdx_length (l : List Img) (n : Nat) :
    (attachIdx l n).length = l.length := by
  induction l generalizing n with
  | nil => rfl
  | cons a l ih => simp [attachIdx, ih]

theorem attachIdx_map_snd (l : List Img) (n : Nat) :
    (attachIdx l n).map Prod.snd = List.range' n l.length := by
  induction l generalizing n with
  | nil => rfl
  | cons a l ih => simp [attachIdx, ih, List.range']

theorem attachIdx_mem_fst (l : List Img) (n : Nat) (p : Img × Nat)
    (h : p ∈ attachIdx l n) : p.1 ∈ l := by
  induction l generalizing n with
  | nil => cases h
  | cons a l ih =>
    rcases List.mem_cons.mp h with rfl | h2
    · exact List.mem_cons_self _ _
    · exact List.mem_cons_of_mem _ (ih _ h2)

theorem attachIdx_mem_of_get (l : List Img) (n k : Nat) (a : Img)
    (h : l.get? k = some a) : (a, n + k) ∈ attachIdx l n := by
  induction l generalizing n k with
  | nil => simp at h
  | cons b l ih =>
    cases k with
    | zero =>
      simp only [List.get?] at h
      obtain rfl : b = a := by injection h
      simp only [Nat.add_zero, attachIdx]
      exact List.mem_cons_self _ _
    | succ k =>
      simp only [List.get?] at h
      have h2 := ih (n + 1) k h
      have heq : n + 1 + k = n + (k + 1) := by omega
      rw [heq] at h2
      exact List.mem_cons_of_mem _ h2

/-! ### Claim C8 -/

/-- C8: extension validation is idempotent and dot-insensitive: it strips
the leading dot separator and lowercases; `validate(".PNG") =
validate("png") = "png"`; `validate(validate(e)) = validate(e)` for every
`e` that validates; every member of the fixed set validates with and
without a leading dot; and every string not normalizing into the set
fails `UnsupportedFormat` with a message naming the offending value and
the full supported set. -/
theorem C8_validate_extension_props :
    validate_extension ".PNG" = .ok "png" ∧
    validate_extension "png" = .ok "png" ∧
    (∀ e r, validate_extension e = .ok r → validate_extension r = .ok r) ∧
    (∀ e ∈ SUPPORTED_EXTENSIONS,
      validate_extension e = .ok e ∧ validate_extension ("." ++ e) = .ok e) ∧
    (∀ e, normalizeExt e ∉ SUPPORTED_EXTENSIONS →
      validate_extension e = .error (.unsupportedFormat e) ∧
      containsSub (unsupportedMsg e) e ∧
      ∀ m ∈ SUPPORTED_EXTENSIONS, containsSub (unsupportedMsg e) m) := by
  have base : ∀ r ∈ SUPPORTED_EXTENSIONS, validate_extension r = .ok r := by decide
  have base2 : ∀ e ∈ SUPPORTED_EXTENSIONS, validate_extension ("." ++ e) = .ok e := by
    decide
  refine ⟨by decide, by decide, ?_, ?_, ?_⟩
  · intro e r h
    simp only [validate_extension] at h
    by_cases hm : normalizeExt e ∈ SUPPORTED_EXTENSIONS
    · rw [if_pos hm] at h
      obtain rfl : normalizeExt e = r := by injection h
      exact base _ hm
    · rw [if_neg hm] at h
      exact absurd h (by simp)
  · intro e he
    exact ⟨base e he, base2 e he⟩
  · intro e hni
    refine ⟨?_, ?_, ?_⟩
    · simp only [validate_extension]
      rw [if_neg hni]
    · exact containsSub_intro _ "Unsupported image format: " e
        ("\nSupported formats: " ++ String.intercalate ", " sortedSupported) rfl
    · intro m hm
      have hj : containsSub (String.intercalate ", " sortedSupported) m := by
        revert hm
        revert m
        decide
      exact containsSub_trans_append _ _ _ (containsSub_trans_append _ _ _ hj)

/-- Witness for C8 at the concrete input `"txt"`. -/
theorem C8_witness :
    validate_extension "txt" = .error (.unsupportedFormat "txt") ∧
    containsSub (unsupportedMsg "txt") "txt" := by
  have h := C8_validate_extension_props.2.2.2.2 "txt" (by decide)
  exact ⟨h.1, h.2.1⟩

/-! ### Claim C2 -/

/-- C2 (evaluation of the code): `save_slices` takes no extension
argument at all and hard-codes the `.png` suffix (and hence the PNG
codec chosen from it) for every slice; the padding and index order do
follow the claimed scheme.  In particular the slice files of the CLI's
`--prefix custom --extension webp` request are written as
`custom_<idx>.png`. -/
theorem C2_save_slices_png_only :
    (∀ (slices : List Img) (d q : String),
      save_slices slices d q =
        (List.range slices.length).map fun i =>
          d ++ "/" ++ q ++ "_" ++ zeroPad (toString slices.length).length i ++ ".png") ∧
    save_slices (List.replicate 4 (mkImg 1 1)) "out" "custom" =
      ["out/custom_0.png", "out/custom_1.png", "out/custom_2.png",
        "out/custom_3.png"] := by
  constructor
  · intro slices d q
    unfold save_slices
    rw [← List.enum_map_fst slices, List.map_map]
    rfl
  · rfl

/-! ### Claim C9 -/

/-- C9: for an existing, decodable image, the legacy slicer fails with
`InvalidArgument` exactly when the requested slice size is ≤ 0 or the
image is smaller than the slice size in either axis. -/
theorem C9_invalid_argument_iff (img : Img) (s : Int) :
    isInvalidArg (slice_image true (some img) s) = true ↔
      s ≤ 0 ∨ (img.width : Int) < s ∨ (img.height : Int) < s := by
  simp only [slice_image, Bool.not_true]
  rw [if_neg (by simp)]
  by_cases h1 : s ≤ 0
  · rw [if_pos h1]
    exact ⟨fun _ => Or.inl h1, fun _ => rfl⟩
  · rw [if_neg h1]
    by_cases h2 : (img.width : Int) < s ∨ (img.height : Int) < s
    · rw [if_pos h2]
      exact ⟨fun _ => Or.inr h2, fun _ => rfl⟩
    · rw [if_neg h2]
      constructor
      · intro hf
        exact absurd hf (by simp [isInvalidArg])
      · intro hor
        rcases hor with h | h | h
        · exact absurd h h1
        · exact absurd (Or.inl h) h2
        · exact absurd (Or.inr h) h2

/-- Witness for C9 at slice size 0 on a 10×10 image. -/
theorem C9_witness :
    isInvalidArg (slice_image true (some (mkImg 10 10)) 0) = true :=
  (C9_invalid_argument_iff (mkImg 10 10) 0).mpr (Or.inl (by decide))

/-! ### Claim C3 -/

/-- C3: for a valid image and valid slice size `s`, the legacy slicer
returns exactly `rows*cols` slices in row-major order
(`rows = ceil(height/s)`, `cols = ceil(width/s)`); the slice at index
`row*cols+col` is the crop of the claimed box padded to size `(s, s)` in
the source mode, with source pixels inside the box and fill 0 in the
padding. -/
theorem C3_slice_layout (img : Img) (s : Nat) (hs : 0 < s)
    (hw : s ≤ img.width) (hh : s ≤ img.height) :
    slice_image true (some img) (s : Int) =
      .ok (sliceCore img s s (cdiv img.height s) (cdiv img.width s)) ∧
    (sliceCore img s s (cdiv img.height s) (cdiv img.width s)).length =
      cdiv img.height s * cdiv img.width s ∧
    ∀ row col, row < cdiv img.height s → col < cdiv img.width s →
      (sliceCore img s s (cdiv img.height s) (cdiv img.width s)).get?
          (row * cdiv img.width s + col) = some (cell img s s row col) ∧
      (cell img s s row col).width = s ∧
      (cell img s s row col).height = s ∧
      (cell img s s row col).mode = img.mode ∧
      ∀ dx dy, dx < s → dy < s →
        (cell img s s row col).px dx dy =
          if col * s + dx < img.width ∧ row * s + dy < img.height then
            img.px (col * s + dx) (row * s + dy)
          else 0 := by
  refine ⟨?_, sliceCore_length img s s _ _, fun row col hr hc =>
    ⟨sliceCore_get img s s _ _ row col hr hc, cell_width img s s row col,
      cell_height img s s row col, cell_mode img s s row col,
      fun dx dy hdx hdy => cell_px img s s row col dx dy hdx hdy⟩⟩
  simp only [slice_image, Bool.not_true]
  rw [if_neg (by simp)]
  rw [if_neg (by omega)]
  rw [if_neg (by omega)]
  simp [Int.toNat_natCast]

/-- Witness for C3 on the concrete 3×3 image with slice size 2. -/
theorem C3_witness :
    slice_image true (some imgSq) 2 = .ok (sliceCore imgSq 2 2 2 2) ∧
    (sliceCore imgSq 2 2 2 2).length = 4 ∧
    (cell imgSq 2 2 1 1).px 0 0 = imgSq.px 2 2 ∧
    (cell imgSq 2 2 1 1).px 1 1 = 0 := by
  have h := C3_slice_layout imgSq 2 (by decide) (by decide) (by decide)
  have h3 := h.2.2 1 1 (by decide) (by decide)
  have ha := h3.2.2.2.2 0 0 (by decide) (by decide)
  have hb := h3.2.2.2.2 1 1 (by decide) (by decide)
  refine ⟨h.1, h.2.1.trans (by decide), ?_, ?_⟩
  · rw [ha, if_pos (by decide)]
  · rw [hb, if_neg (by decide)]

/-! ### Claim C4 -/

/-- C4: for a successfully validated slice set with common size
`(sw, sh)`, the assembler allocates an RGBA canvas of size exactly
`(cols*sw, rows*sh)` and pastes each loaded slice with index `idx` at
`(idx % cols * sw, idx / cols * sh)`; with pairwise-distinct indices the
content within each pasted cell is that slice's, and the result is
invariant under permuting (re-ordering) the loaded list. -/
theorem C4_assemble_paste (slices : List (Img × Nat)) (rows cols sw sh : Nat)
    (hv : validate_dimensions slices rows cols = .ok (sw, sh))
    (hnd : (slices.map Prod.snd).Nodup) :
    assembleSet slices rows cols =
      .ok (pasteAll sw sh cols (newImg "RGBA" (cols * sw) (rows * sh)) slices) ∧
    (pasteAll sw sh cols (newImg "RGBA" (cols * sw) (rows * sh)) slices).mode =
      "RGBA" ∧
    (pasteAll sw sh cols (newImg "RGBA" (cols * sw) (rows * sh)) slices).width =
      cols * sw ∧
    (pasteAll sw sh cols (newImg "RGBA" (cols * sw) (rows * sh)) slices).height =
      rows * sh ∧
    (∀ img idx, (img, idx) ∈ slices → idx / cols < rows →
      ∀ dx dy, dx < sw → dy < sh →
        (pasteAll sw sh cols (newImg "RGBA" (cols * sw) (rows * sh)) slices).px
            (idx % cols * sw + dx) (idx / cols * sh + dy) = img.px dx dy) ∧
    (∀ slices2, slices.Perm slices2 →
      assembleSet slices2 rows cols =
        .ok (pasteAll sw sh cols (newImg "RGBA" (cols * sw) (rows * sh)) slices2) ∧
      ∀ x y,
        (pasteAll sw sh cols (newImg "RGBA" (cols * sw) (rows * sh)) slices2).px x y =
          (pasteAll sw sh cols (newImg "RGBA" (cols * sw) (rows * sh)) slices).px
            x y) := by
  obtain ⟨hne, hlen, hall⟩ := validate_dimensions_ok_inv _ _ _ _ _ hv
  refine ⟨?_, pasteAll_mode .., pasteAll_width .., pasteAll_height .., ?_, ?_⟩
  · unfold assembleSet
    rw [hv]
  · intro img idx hmem hrow dx dy hdx hdy
    have hw : img.width = sw := (hall (img, idx) hmem).1
    have hh : img.height = sh := (hall (img, idx) hmem).2
    have hcov : coversAt sw sh cols (img, idx)
        (idx % cols * sw + dx) (idx / cols * sh + dy) := by
      refine ⟨Nat.le_add_right _ _, ?_, Nat.le_add_right _ _, ?_⟩
      · show idx % cols * sw + dx < idx % cols * sw + img.width
        omega
      · show idx / cols * sh + dy < idx / cols * sh + img.height
        omega
    rw [pasteAll_px_unique sw sh cols slices _ img idx _ _ hmem hnd hall hcov]
    congr 1 <;> omega
  · intro slices2 hperm
    have hl := hperm.length_eq
    have hv2 : validate_dimensions slices2 rows cols = .ok (sw, sh) := by
      apply validate_dimensions_ok
      · intro hnil
        exact hne (List.length_eq_zero.mp (by rw [hl, hnil]; rfl))
      · rw [← hl]
        exact hlen
      · intro p hp
        exact hall p (hperm.mem_iff.mpr hp)
    refine ⟨by unfold assembleSet; rw [hv2], ?_⟩
    intro x y
    have hnd2 : (slices2.map Prod.snd).Nodup := (hperm.map Prod.snd).nodup_iff.mp hnd
    have hall2 : ∀ p ∈ slices2, p.1.width = sw ∧ p.1.height = sh := fun p hp =>
      hall p (hperm.mem_iff.mpr hp)
    by_cases hex : ∃ p ∈ slices, coversAt sw sh cols p x y
    · obtain ⟨⟨img, idx⟩, hp, hpcov⟩ := hex
      rw [pasteAll_px_unique sw sh cols slices2 _ img idx x y
            (hperm.mem_iff.mp hp) hnd2 hall2 hpcov,
          pasteAll_px_unique sw sh cols slices _ img idx x y hp hnd hall hpcov]
    · push_neg at hex
      rw [pasteAll_px_not_covered _ _ _ _ _ _ _
            (fun q hq => hex q (hperm.mem_iff.mpr hq)),
          pasteAll_px_not_covered _ _ _ _ _ _ _ hex]

/-- Witness for C4 on two 1×1 slices listed out of index order. -/
theorem C4_witness :
    (pasteAll 1 1 2 (newImg "RGBA" (2 * 1) (1 * 1))
        [(constImg 1 1 7, 1), (constImg 1 1 5, 0)]).px
      (1 % 2 * 1 + 0) (1 / 2 * 1 + 0) = (constImg 1 1 7).px 0 0 ∧
    assembleSet [(constImg 1 1 7, 1), (constImg 1 1 5, 0)] 1 2 =
      .ok (pasteAll 1 1 2 (newImg "RGBA" (2 * 1) (1 * 1))
        [(constImg 1 1 7, 1), (constImg 1 1 5, 0)]) := by
  have h := C4_assemble_paste [(constImg 1 1 7, 1), (constImg 1 1 5, 0)] 1 2 1 1
    (by decide) (by decide)
  exact ⟨h.2.2.2.2.1 (constImg 1 1 7) 1 (List.mem_cons_self _ _) (by decide)
    0 0 (by decide) (by decide), h.1⟩

/-! ### Claim C10 -/

/-- C10: dimension validation constrains only the slice count and the
image sizes, never the index values: any list of the right length whose
images share one size validates and reaches the paste loop, with no
hypothesis at all on the attached indices (they may repeat or lie
outside `0..rows*cols-1`). -/
theorem C10_indices_unchecked (slices : List (Img × Nat)) (rows cols sw sh : Nat)
    (hr : 0 < rows) (hc : 0 < cols)
    (hlen : slices.length = rows * cols)
    (hall : ∀ p ∈ slices, p.1.width = sw ∧ p.1.height = sh) :
    validate_dimensions slices rows cols = .ok (sw, sh) ∧
    assembleSet slices rows cols =
      .ok (pasteAll sw sh cols (newImg "RGBA" (cols * sw) (rows * sh)) slices) := by
  have hne : slices ≠ [] := by
    intro hnil
    rw [hnil] at hlen
    have := Nat.mul_pos hr hc
    simp at hlen
    omega
  have hv := validate_dimensions_ok slices rows cols sw sh hne hlen hall
  refine ⟨hv, ?_⟩
  unfold assembleSet
  rw [hv]

/-- Witness for C10 with duplicated and out-of-range indices. -/
theorem C10_witness :
    validate_dimensions
        [(mkImg 2 3, 5), (mkImg 2 3, 5), (mkImg 2 3, 99), (mkImg 2 3, 7)] 2 2 =
      .ok (2, 3) ∧
    assembleSet [(mkImg 2 3, 5), (mkImg 2 3, 5), (mkImg 2 3, 99), (mkImg 2 3, 7)]
        2 2 =
      .ok (pasteAll 2 3 2 (newImg "RGBA" (2 * 2) (2 * 3))
        [(mkImg 2 3, 5), (mkImg 2 3, 5), (mkImg 2 3, 99), (mkImg 2 3, 7)]) := by
  exact C10_indices_unchecked _ 2 2 2 3 (by decide) (by decide) (by decide)
    (by
      intro p hp
      simp only [List.mem_cons, List.not_mem_nil, or_false] at hp
      rcases hp with rfl | rfl | rfl | rfl <;> exact ⟨rfl, rfl⟩)

/-! ### Claim C1 -/

/-- C1 (grid slicing modelled from the spec, assembly from the source):
slicing an image with a `rows × cols` grid and assembling the resulting
slice set with the same `rows`/`cols` succeeds and yields an image of
size `(cols*slice_width, rows*slice_height)` with
`slice_width = ceil(width/cols)`, `slice_height = ceil(height/rows)`,
whose pixels on `[0,width) × [0,height)` equal the source's. -/
theorem C1_slice_assemble_roundtrip (img : Img) (rows cols : Nat)
    (hr : 0 < rows) (hc : 0 < cols) :
    assembleSet (attachIdx (sliceGrid img rows cols) 0) rows cols =
      .ok (roundTrip img rows cols) ∧
    (roundTrip img rows cols).width = cols * cdiv img.width cols ∧
    (roundTrip img rows cols).height = rows * cdiv img.height rows ∧
    ∀ x y, x < img.width → y < img.height →
      (roundTrip img rows cols).px x y = img.px x y := by
  set sw := cdiv img.width cols with hswdef
  set sh := cdiv img.height rows with hshdef
  have hlen : (attachIdx (sliceGrid img rows cols) 0).length = rows * cols := by
    rw [attachIdx_length, sliceGrid, sliceCore_length]
  have hall : ∀ p ∈ attachIdx (sliceGrid img rows cols) 0,
      p.1.width = sw ∧ p.1.height = sh := by
    intro p hp
    have hm : p.1 ∈ sliceCore img sw sh rows cols := attachIdx_mem_fst _ _ _ hp
    have hs := sliceCore_mem_size img sw sh rows cols p.1 hm
    exact ⟨hs.1, hs.2.1⟩
  have hne : attachIdx (sliceGrid img rows cols) 0 ≠ [] := by
    intro hnil
    have h0 := hlen
    rw [hnil] at h0
    have hpos := Nat.mul_pos hr hc
    simp at h0
    omega
  have hv := validate_dimensions_ok _ rows cols sw sh hne hlen hall
  have hnd : ((attachIdx (sliceGrid img rows cols) 0).map Prod.snd).Nodup := by
    rw [attachIdx_map_snd]
    exact List.nodup_range' _ _
  refine ⟨?_, ?_, ?_, ?_⟩
  · unfold assembleSet
    rw [hv]
    rfl
  · show (pasteAll sw sh cols (newImg "RGBA" (cols * sw) (rows * sh))
        (attachIdx (sliceGrid img rows cols) 0)).width = cols * sw
    rw [pasteAll_width]
    rfl
  · show (pasteAll sw sh cols (newImg "RGBA" (cols * sw) (rows * sh))
        (attachIdx (sliceGrid img rows cols) 0)).height = rows * sh
    rw [pasteAll_height]
    rfl
  · intro x y hx hy
    have hswpos : 0 < sw := cdiv_pos _ _ (by omega) hc
    have hshpos : 0 < sh := cdiv_pos _ _ (by omega) hr
    set col := x / sw with hcoldef
    set row := y / sh with hrowdef
    have hcol : col < cols := by
      rw [hcoldef, Nat.div_lt_iff_lt_mul hswpos]
      calc x < img.width := hx
      _ ≤ cols * sw := le_mul_cdiv _ _ hc
    have hrow : row < rows := by
      rw [hrowdef, Nat.div_lt_iff_lt_mul hshpos]
      calc y < img.height := hy
      _ ≤ rows * sh := le_mul_cdiv _ _ hr
    have hxl : col * sw ≤ x := Nat.div_mul_le_self x sw
    have hxu : x < col * sw + sw := by
      rw [hcoldef]
      have hdm := Nat.div_add_mod x sw
      have hm := Nat.mod_lt x hswpos
      have hcm : sw * (x / sw) = x / sw * sw := Nat.mul_comm _ _
      omega
    have hyl : row * sh ≤ y := Nat.div_mul_le_self y sh
    have hyu : y < row * sh + sh := by
      rw [hrowdef]
      have hdm := Nat.div_add_mod y sh
      have hm := Nat.mod_lt y hshpos
      have hcm : sh * (y / sh) = y / sh * sh := Nat.mul_comm _ _
      omega
    have hget : (sliceGrid img rows cols).get? (row * cols + col) =
        some (cell img sw sh row col) :=
      sliceCore_get img sw sh rows cols row col hrow hcol
    have hmem : (cell img sw sh row col, 0 + (row * cols + col)) ∈
        attachIdx (sliceGrid img rows cols) 0 :=
      attachIdx_mem_of_get _ _ _ _ hget
    rw [Nat.zero_add] at hmem
    have hmod : (row * cols + col) % cols = col := by
      rw [Nat.mul_comm row cols, Nat.mul_add_mod, Nat.mod_eq_of_lt hcol]
    have hdiv : (row * cols + col) / cols = row := by
      rw [Nat.add_comm, Nat.add_mul_div_right _ _ hc, Nat.div_eq_of_lt hcol,
        Nat.zero_add]
    have hcov : coversAt sw sh cols (cell img sw sh row col, row * cols + col)
        x y := by
      refine ⟨?_, ?_, ?_, ?_⟩
      · show (row * cols + col) % cols * sw ≤ x
        rw [hmod]
        exact hxl
      · show x < (row * cols + col) % cols * sw + (cell img sw sh row col).width
        rw [hmod, cell_width]
        exact hxu
      · show (row * cols + col) / cols * sh ≤ y
        rw [hdiv]
        exact hyl
      · show y < (row * cols + col) / cols * sh + (cell img sw sh row col).height
        rw [hdiv, cell_height]
        exact hyu
    have hpx := pasteAll_px_unique sw sh cols _
      (newImg "RGBA" (cols * sw) (rows * sh)) (cell img sw sh row col)
      (row * cols + col) x y hmem hnd hall hcov
    show (pasteAll sw sh cols (newImg "RGBA" (cols * sw) (rows * sh))
        (attachIdx (sliceGrid img rows cols) 0)).px x y = img.px x y
    rw [hpx, hmod, hdiv]
    have hdx : x - col * sw < sw := by omega
    have hdy : y - row * sh < sh := by omega
    rw [cell_px img sw sh row col _ _ hdx hdy]
    rw [if_pos]
    · congr 1 <;> omega
    · constructor
      · have hxx : col * sw + (x - col * sw) = x := by omega
        rw [hxx]
        exact hx
      · have hyy : row * sh + (y - row * sh) = y := by omega
        rw [hyy]
        exact hy

/-- Witness for C1 on the concrete 3×2 image with a 2×2 grid. -/
theorem C1_witness :
    (roundTrip imgSrc 2 2).width = 2 * cdiv imgSrc.width 2 ∧
    (roundTrip imgSrc 2 2).px 2 1 = imgSrc.px 2 1 := by
  have h := C1_slice_assemble_roundtrip imgSrc 2 2 (by decide) (by decide)
  exact ⟨h.2.1, h.2.2.2 2 1 (by decide) (by decide)⟩

/-! ### Claim C5 -/

/-- C5 counterexample: a file matching the pattern at the end of its
name but not at its start (`x_slice_3.png`) is what the claim's
end-anchored reading selects (index 3), yet the loader — whose regex is
applied with Python's start-anchoring `match` — selects nothing and
fails `NoSlicesFound` instead of returning that file. -/
theorem C5_counterexample :
    load_slices true dir5 "slice" "png" = .error .noSlicesFound ∧
    loadEndAnchored dir5 "slice" "png" = [(mkImg 1 1, 3)] := ⟨rfl, rfl⟩

/-- C5 amended: the loader keeps exactly the files whose whole name
matches `{prefix}_(\d+).{ext}` (anchored at both the start and the end),
sorted ascending by captured index — and when no file matches it fails
`NoSlicesFound` rather than returning an empty sequence. -/
theorem C5_amended (dir : List (String × Img)) (pfx ext ext2 : String)
    (hval : validate_extension ext = .ok ext2) :
    (matchedFiles dir pfx ext2 = [] →
      load_slices true dir pfx ext = .error .noSlicesFound) ∧
    (matchedFiles dir pfx ext2 ≠ [] →
      load_slices true dir pfx ext = .ok (sortByIdx (matchedFiles dir pfx ext2)) ∧
      (sortByIdx (matchedFiles dir pfx ext2)).Pairwise (fun a b => a.2 ≤ b.2) ∧
      (sortByIdx (matchedFiles dir pfx ext2)).Perm (matchedFiles dir pfx ext2)) := by
  constructor
  · intro hempty
    simp only [load_slices, Bool.not_true]
    rw [if_neg (by simp), hval]
    show (if (matchedFiles dir pfx ext2).isEmpty = true then
        Except.error Err.noSlicesFound
      else Except.ok (sortByIdx (matchedFiles dir pfx ext2))) =
      Except.error Err.noSlicesFound
    rw [hempty]
    rfl
  · intro hne2
    have hecond : (matchedFiles dir pfx ext2).isEmpty = false := by
      cases hlist : matchedFiles dir pfx ext2 with
      | nil => exact absurd hlist hne2
      | cons a l => rfl
    refine ⟨?_, ?_, ?_⟩
    · simp only [load_slices, Bool.not_true]
      rw [if_neg (by simp), hval]
      show (if (matchedFiles dir pfx ext2).isEmpty = true then
          Except.error Err.noSlicesFound
        else Except.ok (sortByIdx (matchedFiles dir pfx ext2))) =
        Except.ok (sortByIdx (matchedFiles dir pfx ext2))
      rw [hecond]
      rfl
    · exact List.sorted_insertionSort _ _
    · exact List.perm_insertionSort _ _

/-- Witness for C5 on a directory holding two well-named slice files
(listed out of index order) and one silently-ignored unrelated file. -/
theorem C5_witness :
    load_slices true dirW5 "slice" "png" =
      .ok [(constImg 1 1 5, 0), (constImg 1 1 7, 1)] := by
  have h := (C5_amended dirW5 "slice" "png" "png" rfl).2 (fun hnil => nomatch hnil)
  exact h.1

/-! ### Claim C6 -/

/-- C6 counterexample: on a slice list whose list order disagrees with
index order, the validator reports the first differing slice in LIST
order (index 2, size (90,150), expected (100,150) from the first listed
slice), not the first differing slice in index order as the claim states
(scanning by index, the baseline is the idx-0 slice of size (80,150) and
the first differing one is idx 1 of size (100,150)). -/
theorem C6_counterexample :
    validate_dimensions cex6 2 2 = .error (.sizeMismatch 2 (90, 150) (100, 150)) ∧
    firstMismatch cex6 = some (1, (100, 150)) ∧
    Err.sizeMismatch 2 (90, 150) (100, 150) ≠
      .sizeMismatch 1 (100, 150) (80, 150) := by
  refine ⟨by decide, by decide, by decide⟩

/-- C6 amended: for a list of length `rows*cols`, if every slice's size
equals the FIRST LISTED slice's size the validator returns that size;
otherwise it fails `SizeMismatch` naming the index, size, and expected
size of the first slice in LIST order whose size differs (list order
equals index order when the input is sorted by index, as the loader
produces). -/
theorem C6_amended (first : Img × Nat) (rest : List (Img × Nat)) (rows cols : Nat)
    (hlen : (first :: rest).length = rows * cols) :
    ((∀ p ∈ first :: rest, p.1.width = first.1.width ∧ p.1.height = first.1.height) →
      validate_dimensions (first :: rest) rows cols =
        .ok (first.1.width, first.1.height)) ∧
    (∀ l1 p l2, first :: rest = l1 ++ p :: l2 →
      (∀ q ∈ l1, q.1.width = first.1.width ∧ q.1.height = first.1.height) →
      ¬(p.1.width = first.1.width ∧ p.1.height = first.1.height) →
      validate_dimensions (first :: rest) rows cols =
        .error (.sizeMismatch p.2 (p.1.width, p.1.height)
          (first.1.width, first.1.height))) := by
  constructor
  · intro hall
    exact validate_dimensions_ok _ _ _ _ _ (by simp) hlen hall
  · intro l1 p l2 hdecomp hok hbad
    simp only [validate_dimensions]
    rw [if_neg (not_not.mpr hlen)]
    have hcs : checkSizes first.1.width first.1.height (first :: rest) =
        .error (.sizeMismatch p.2 (p.1.width, p.1.height)
          (first.1.width, first.1.height)) := by
      rw [hdecomp]
      exact checkSizes_error_first _ _ _ _ _ hok hbad
    rw [hcs]

/-- Witness for C6 on the spec's concrete example (indices in list
order 0..3, sizes (100,150),(100,150),(90,150),(100,150)): the reported
index is 2. -/
theorem C6_witness :
    validate_dimensions s6 2 2 = .error (.sizeMismatch 2 (90, 150) (100, 150)) := by
  have h := (C6_amended (mkImg 100 150, 0)
    [(mkImg 100 150, 1), (mkImg 90 150, 2), (mkImg 100 150, 3)] 2 2 (by decide)).2
    [(mkImg 100 150, 0), (mkImg 100 150, 1)] (mkImg 90 150, 2) [(mkImg 100 150, 3)]
    rfl
    (by
      intro q hq
      simp only [List.mem_cons, List.not_mem_nil, or_false] at hq
      rcases hq with rfl | rfl <;> exact ⟨rfl, rfl⟩)
    (by
      intro hpair
      have h90 : (90 : Nat) = 100 := hpair.1
      omega)
  exact h

/-! ### Claim C7 -/

/-- Every failure of the size-checking loop is a `SizeMismatch`. -/
theorem checkSizes_error_shape (sw sh : Nat) (l : List (Img × Nat)) (e : Err)
    (h : checkSizes sw sh l = .error e) :
    ∃ i s1, e = .sizeMismatch i s1 (sw, sh) := by
  induction l with
  | nil => simp [checkSizes] at h
  | cons p rest ih =>
    obtain ⟨img, idx⟩ := p
    simp only [checkSizes] at h
    by_cases hc : (img.width, img.height) ≠ (sw, sh)
    · rw [if_pos hc] at h
      exact ⟨idx, (img.width, img.height), (Except.error.inj h).symm⟩
    · rw [if_neg hc] at h
      exact ih h

/-- The expected and found counts both occur in the count-mismatch
message. -/
theorem countMsg_contains (e f r c : Nat) :
    containsSub (countMsg e f r c) (toString e) ∧
    containsSub (countMsg e f r c) (toString f) := by
  constructor
  · apply containsSub_intro _ "Expected " _
      (" slices (rows=" ++ toString r ++
        (", cols=" ++ toString c ++ "), but found " ++ toString f))
    simp [countMsg, String.append_assoc]
  · apply containsSub_intro _
      ("Expected " ++ toString e ++ " slices (rows=" ++ toString r ++
        ", cols=" ++ toString c ++ "), but found ") _ ""
    simp [countMsg, String.append_assoc]

/-- C7 counterexample: on the empty slice list (with rows=2, cols=3, so
`len(slices) != rows*cols`), validation fails with the distinct
`No slices provided` error, not with `CountMismatch` as the claim's
"exactly when" requires. -/
theorem C7_counterexample :
    validate_dimensions ([] : List (Img × Nat)) 2 3 = .error .noSlicesProvided ∧
    Err.noSlicesProvided ≠ .countMismatch 6 0 2 3 ∧
    (0 : Nat) ≠ 2 * 3 := ⟨rfl, by decide, by decide⟩

/-- C7 amended: for every NON-EMPTY slice list, validation fails with
`CountMismatch` exactly when `len(slices) != rows*cols`, with a message
naming both the expected and the found counts. -/
theorem C7_amended (slices : List (Img × Nat)) (rows cols : Nat)
    (hne : slices ≠ []) :
    (slices.length ≠ rows * cols →
      validate_dimensions slices rows cols =
        .error (.countMismatch (rows * cols) slices.length rows cols) ∧
      containsSub (countMsg (rows * cols) slices.length rows cols)
        (toString (rows * cols)) ∧
      containsSub (countMsg (rows * cols) slices.length rows cols)
        (toString slices.length)) ∧
    (slices.length = rows * cols →
      ∀ e f r c, validate_dimensions slices rows cols ≠
        .error (.countMismatch e f r c)) := by
  cases slices with
  | nil => exact absurd rfl hne
  | cons first rest =>
    constructor
    · intro hlen
      refine ⟨?_, (countMsg_contains _ _ _ _).1, (countMsg_contains _ _ _ _).2⟩
      simp only [validate_dimensions]
      rw [if_pos hlen]
    · intro hlen e f r c heq
      simp only [validate_dimensions] at heq
      rw [if_neg (not_not.mpr hlen)] at heq
      cases hcsv : checkSizes first.1.width first.1.height (first :: rest) with
      | error er =>
        rw [hcsv] at heq
        obtain ⟨i, s1, rfl⟩ := checkSizes_error_shape _ _ _ _ hcsv
        exact absurd (Except.error.inj heq) (by simp)
      | ok u =>
        rw [hcsv] at heq
        exact absurd heq (by simp)

/-- Witness for C7: 4 slices validated against rows=2, cols=3 fail with
`CountMismatch` whose message contains "Expected 6". -/
theorem C7_witness :
    validate_dimensions s7 2 3 = .error (.countMismatch 6 4 2 3) ∧
    containsSub (countMsg 6 4 2 3) "Expected 6" := by
  have h := (C7_amended s7 2 3 (by simp [s7])).1 (by decide)
  exact ⟨h.1, by decide⟩

end Poziq
